import Mathlib

/-!
Shallow embedding of the vending-machine marketplace API
(`app.py`, `tools.py`): data model, transaction engine (buy / deposit /
reset), product and user management handlers, the change calculator, and
the bearer-token access-control middleware.  Python integers are modelled
as `Int`; Python floor division `//` by a positive divisor coincides with
`Int` division `/` here, and Python `%` by a positive modulus coincides
with `Int.emod`.
-/

namespace VendingMachine

/-! ## Change calculator (app.py, buy handler, lines 255-262)

Python source:
```
change = []
remaining = user.deposit
coins = [100, 50, 20, 10, 5]
for coin in coins:
    count = remaining // coin
    if count > 0:
        remaining -= count * coin
        change += [coin] * count
```
-/

def coins : List Int := [100, 50, 20, 10, 5]

/-- One iteration of the `for coin in coins` loop: the accumulator holds
`(change, remaining)`. -/
def changeStep (acc : List Int × Int) (coin : Int) : List Int × Int :=
  let count := acc.2 / coin
  if 0 < count then (acc.1 ++ List.replicate count.toNat coin, acc.2 - count * coin)
  else acc

/-- The change computed by the loop for a given remaining balance. -/
def change (amount : Int) : List Int :=
  (coins.foldl changeStep ([], amount)).1

/-- The remaining balance left over after the loop. -/
def changeRemainder (amount : Int) : Int :=
  (coins.foldl changeStep ([], amount)).2

/-- The denomination set accepted by the deposit endpoint
(app.py line 219: `[5, 10, 20, 50, 100]`). -/
def coinValues : List Int := [5, 10, 20, 50, 100]

/-- An amount expressible as a sum of elements of the denomination set. -/
def IsDenomSum (a : Int) : Prop :=
  ∃ l : List Int, (∀ x ∈ l, x ∈ coinValues) ∧ l.sum = a

/-! ## Data model (app.py lines 24-58)

`User.deposit` is the spec's `balance`; `Product.amount_available` is the
spec's `stock`; `Product.cost` is the spec's `unit_cost`. -/

structure User where
  id : Nat
  username : String
  password : String
  deposit : Int
  role : String
deriving DecidableEq

structure Product where
  id : Nat
  name : String
  amount_available : Int
  cost : Int
  seller_id : Nat
deriving DecidableEq

/-- The persistent store: user and product tables plus the autoincrement
counters for their primary keys. -/
structure VMState where
  users : List User
  products : List Product
  nextUid : Nat
  nextPid : Nat
deriving DecidableEq

def initState : VMState := ⟨[], [], 1, 1⟩

/-- `User.query.get(uid)`: primary-key lookup. -/
def findUser (s : VMState) (uid : Nat) : Option User :=
  s.users.find? (fun u => u.id = uid)

/-- `Product.query.get(pid)`: primary-key lookup. -/
def findProduct (s : VMState) (pid : Nat) : Option Product :=
  s.products.find? (fun p => p.id = pid)

/-- Committing a mutated user row: replaces the row with that id. -/
def putUser (s : VMState) (u : User) : VMState :=
  { s with users := s.users.map (fun v => if v.id = u.id then u else v) }

/-- Committing a mutated product row: replaces the row with that id. -/
def putProduct (s : VMState) (p : Product) : VMState :=
  { s with products := s.products.map (fun q => if q.id = p.id then p else q) }

/-! ## Auth routes (app.py lines 62-98) -/

inductive RegisterResult where
  | missingFields
  | duplicateUsername
  | created
deriving DecidableEq

/-- `POST /register` (app.py lines 62-78).  The role is taken from the
request body with default `"buyer"` and stored without validation; the
password hash is kept abstract as the plain string (opaque to all claims). -/
def register (s : VMState) (username password : String) (roleField : Option String) :
    RegisterResult × VMState :=
  let role := roleField.getD "buyer"
  if username = "" ∨ password = "" then (.missingFields, s)
  else if s.users.any (fun u => u.username = username) then (.duplicateUsername, s)
  else
    (.created,
     { s with
        users := s.users ++ [⟨s.nextUid, username, password, 0, role⟩],
        nextUid := s.nextUid + 1 })

/-! ## Token service and access-control middleware (tools.py)

Tokens are modelled symbolically: an issued token is its payload, and the
jwt decode step is a parameter `decode` mapping the credential characters
to `some payload` (valid signature and expiry) or `none`
(`InvalidTokenError`). -/

structure TokenPayload where
  sub : Nat
  role : String
deriving DecidableEq

/-- `generate_token` (tools.py lines 35-43), with the signature and the
timestamps abstracted away: the signed assertion is its payload. -/
def generate_token (user_id : Nat) (role : String) : TokenPayload :=
  ⟨user_id, role⟩

/-- Python `str.split()` with no separator: split on runs of whitespace,
discarding empty pieces. -/
def pySplitAux : List Char → List Char → List (List Char)
  | [], acc => if acc = [] then [] else [acc.reverse]
  | c :: cs, acc =>
    if c.isWhitespace then
      if acc = [] then pySplitAux cs [] else acc.reverse :: pySplitAux cs []
    else pySplitAux cs (c :: acc)

def pySplit (s : String) : List (List Char) :=
  pySplitAux s.toList []

/-- Python `needle in haystack` on strings: contiguous substring test. -/
def strContains (haystack needle : String) : Bool :=
  decide (needle.toList <:+: haystack.toList)

inductive AuthOutcome where
  | missingHeader
  | malformedHeader
  | invalidToken
  | forbidden
  | serverCrash
  | ok (user_id : Nat)
deriving DecidableEq

/-- The body of the `auth_required` wrapper after the header has been
split (tools.py lines 14-31).  `.serverCrash` marks the unhandled
`IndexError` raised by `parts[0]` when the split yields no tokens. -/
def checkParts (role : String) (decode : List Char → Option TokenPayload) :
    List (List Char) → AuthOutcome
  | [] => .serverCrash
  | p0 :: rest =>
    if p0.map Char.toLower ≠ "bearer".toList then .malformedHeader
    else
      match rest with
      | [] => .malformedHeader
      | [tok] =>
        match decode tok with
        | none => .invalidToken
        | some payload =>
          if strContains role payload.role then .ok payload.sub
          else .forbidden
      | _ => .malformedHeader

/-- The `auth_required(role)` middleware (tools.py lines 7-33) applied to
one request: `header` is the raw Authorization header (absent or its
value).  Python's `if not auth_header` also treats the empty string as a
missing header. -/
def auth_check (role : String) (header : Option String)
    (decode : List Char → Option TokenPayload) : AuthOutcome :=
  match header with
  | none => .missingHeader
  | some h =>
    if h = "" then .missingHeader
    else checkParts role decode (pySplit h)

/-- The required role-set of a middleware role string, as the spec reads
it: the pipe-separated components (e.g. `"seller|buyer"` denotes
`{seller, buyer}`). -/
def roleSetAux : List Char → List Char → List (List Char)
  | [], acc => [acc.reverse]
  | c :: cs, acc =>
    if c = '|' then acc.reverse :: roleSetAux cs []
    else roleSetAux cs (c :: acc)

def roleSet (role : String) : List (List Char) :=
  roleSetAux role.toList []

/-! ## User routes (app.py lines 118-128) -/

inductive DeleteUserResult where
  | notSelf
  | userNotFound
  | deleted
deriving DecidableEq

/-- `DELETE /users/<user_id>` (app.py lines 118-128): self-service only. -/
def delete_user (s : VMState) (actor target : Nat) : DeleteUserResult × VMState :=
  if actor ≠ target then (.notSelf, s)
  else
    match findUser s target with
    | none => (.userNotFound, s)
    | some _ => (.deleted, { s with users := s.users.filter (fun u => u.id ≠ target) })

/-! ## Product routes (app.py lines 149-210)

Optional fields model `request.json.get(...)`; the guards reproduce
Python truthiness (`0`, `""` and absent values are all falsy). -/

inductive CreateProductResult where
  | missingFields
  | sellerNotFound
  | created
deriving DecidableEq

/-- `POST /products` (app.py lines 149-169). -/
def create_product (s : VMState) (seller_id : Nat)
    (amount_available cost : Option Int) (name : Option String) :
    CreateProductResult × VMState :=
  if amount_available.getD 0 = 0 ∨ cost = none ∨ cost = some 0 ∨ name = none ∨ name = some "" then
    (.missingFields, s)
  else
    match findUser s seller_id with
    | none => (.sellerNotFound, s)
    | some _ =>
      (.created,
       { s with
          products :=
            s.products ++
              [⟨s.nextPid, name.getD "", amount_available.getD 0, cost.getD 0, seller_id⟩],
          nextPid := s.nextPid + 1 })

inductive UpdateProductResult where
  | productNotFound
  | notOwner
  | sellerNotFound
  | updated
deriving DecidableEq

/-- `PUT /products/<product_id>` (app.py lines 172-195): absent body
fields default to the product's current values. -/
def update_product (s : VMState) (user_id pid : Nat)
    (amount_available cost : Option Int) (name : Option String) :
    UpdateProductResult × VMState :=
  match findProduct s pid with
  | none => (.productNotFound, s)
  | some product =>
    if product.seller_id ≠ user_id then (.notOwner, s)
    else
      match findUser s user_id with
      | none => (.sellerNotFound, s)
      | some _ =>
        (.updated,
         putProduct s
           { product with
              amount_available := amount_available.getD product.amount_available,
              cost := cost.getD product.cost,
              name := name.getD product.name,
              seller_id := user_id })

inductive DeleteProductResult where
  | productNotFound
  | notOwner
  | deleted
deriving DecidableEq

/-- `DELETE /products/<product_id>` (app.py lines 198-210). -/
def delete_product (s : VMState) (user_id pid : Nat) : DeleteProductResult × VMState :=
  match findProduct s pid with
  | none => (.productNotFound, s)
  | some product =>
    if product.seller_id ≠ user_id then (.notOwner, s)
    else (.deleted, { s with products := s.products.filter (fun q => q.id ≠ pid) })

/-! ## Buyer routes (app.py lines 214-284) -/

inductive DepositResult where
  | invalidCoin
  | userNotFound
  | success
deriving DecidableEq

/-- `POST /deposit` (app.py lines 214-228): the coin is validated against
the denomination set before the user is even looked up. -/
def depositOp (s : VMState) (user_id : Nat) (coin : Int) : DepositResult × VMState :=
  if coin ∉ coinValues then (.invalidCoin, s)
  else
    match findUser s user_id with
    | none => (.userNotFound, s)
    | some user => (.success, putUser s { user with deposit := user.deposit + coin })

inductive BuyResult where
  | userNotFound
  | productNotFound
  | insufficientStock
  | insufficientFunds
  | success (change : List Int)
deriving DecidableEq

/-- `POST /buy` (app.py lines 231-272): `user_id` comes from the verified
token (`request.user_id`), `product_id` and `amount` from the body.  On
success, the debit and the stock decrement are committed together and the
change is computed from the user's resulting balance. -/
def buy (s : VMState) (user_id : Nat) (product_id : Option Nat) (amount : Int) :
    BuyResult × VMState :=
  match findUser s user_id with
  | none => (.userNotFound, s)
  | some user =>
    match product_id.bind (fun pid => findProduct s pid) with
    | none => (.productNotFound, s)
    | some product =>
      if product.amount_available < amount then (.insufficientStock, s)
      else if user.deposit < amount * product.cost then (.insufficientFunds, s)
      else
        let user' := { user with deposit := user.deposit - amount * product.cost }
        let product' := { product with amount_available := product.amount_available - amount }
        (.success (change user'.deposit), putProduct (putUser s user') product')

inductive ResetResult where
  | userNotFound
  | success
deriving DecidableEq

/-- `POST /reset` (app.py lines 275-284). -/
def reset_deposit (s : VMState) (user_id : Nat) : ResetResult × VMState :=
  match findUser s user_id with
  | none => (.userNotFound, s)
  | some user => (.success, putUser s { user with deposit := 0 })

/-- The JSON body of a buy request.  `user_id` stands for any
user-identifying field a caller may include: the handler never reads it. -/
structure BuyRequestBody where
  product_id : Option Nat
  amount : Option Int
  user_id : Option Nat
deriving DecidableEq

/-- The buy route as invoked after the middleware: the acting user comes
from the AuthContext (`request.user_id`), never from the body; the body's
`amount` defaults to 1 (app.py line 236). -/
def buyHandler (s : VMState) (authUserId : Nat) (body : BuyRequestBody) :
    BuyResult × VMState :=
  buy s authUserId body.product_id (body.amount.getD 1)

/-! ## The exposed mutating surface as a state machine -/

inductive Op where
  | opRegister (username password : String) (role : Option String)
  | opDeposit (uid : Nat) (coin : Int)
  | opBuy (uid : Nat) (pid : Option Nat) (amount : Int)
  | opReset (uid : Nat)
  | opCreateProduct (uid : Nat) (amount_available cost : Option Int) (name : Option String)
  | opUpdateProduct (uid pid : Nat) (amount_available cost : Option Int) (name : Option String)
  | opDeleteProduct (uid pid : Nat)
  | opDeleteUser (uid target : Nat)
deriving DecidableEq

/-- Effect of one request of the exposed surface on the store (the read
endpoints do not mutate and are omitted). -/
def step (s : VMState) : Op → VMState
  | .opRegister un pw r => (register s un pw r).2
  | .opDeposit uid c => (depositOp s uid c).2
  | .opBuy uid pid amt => (buy s uid pid amt).2
  | .opReset uid => (reset_deposit s uid).2
  | .opCreateProduct uid a c n => (create_product s uid a c n).2
  | .opUpdateProduct uid pid a c n => (update_product s uid pid a c n).2
  | .opDeleteProduct uid pid => (delete_product s uid pid).2
  | .opDeleteUser uid t => (delete_user s uid t).2

/-- States reachable from the empty store by any request sequence. -/
inductive Reachable : VMState → Prop where
  | init : Reachable initState
  | next (s : VMState) (op : Op) : Reachable s → Reachable (step s op)

/-- The operations the spec lists as the balance-mutating ones. -/
def mutatesBalance : Op → Bool
  | .opDeposit .. => true
  | .opBuy .. => true
  | .opReset .. => true
  | _ => false

/-! ## Concrete example states used to evaluate the theorems -/

/-- A buyer with balance 0 facing a product with stock 0 and cost 10. -/
def cexBuyState : VMState :=
  ⟨[⟨1, "alice", "pw", 0, "buyer"⟩], [⟨1, "candy", 0, 10, 2⟩], 2, 2⟩

/-- A buyer with balance 150 facing a product with stock 10 and cost 50. -/
def exBuyState : VMState :=
  ⟨[⟨1, "bob", "pw", 150, "buyer"⟩], [⟨1, "candy", 10, 50, 2⟩], 2, 2⟩

/-- A buyer with balance 0 and no products. -/
def exDepositState : VMState :=
  ⟨[⟨1, "carol", "pw", 0, "buyer"⟩], [], 2, 1⟩

/-- Registering a seller from the empty store. -/
def cexSellerState : VMState :=
  step initState (.opRegister "sally" "pw" (some "seller"))

/-- That seller then creates a product with `amount_available = -5`. -/
def cexNegStockState : VMState :=
  step cexSellerState (.opCreateProduct 1 (some (-5)) (some 3) (some "candy"))

/-- Registering a buyer from the empty store. -/
def exRegState : VMState :=
  step initState (.opRegister "ann" "pw" none)

end VendingMachine

namespace VendingMachine

/-! ## Lemmas about the change calculator -/

theorem changeStep_sum (l : List Int) (r c : Int) :
    (changeStep (l, r) c).1.sum + (changeStep (l, r) c).2 = l.sum + r := by
  unfold changeStep
  by_cases h : 0 < r / c
  · simp only [h, if_pos, List.sum_append, List.sum_replicate, nsmul_eq_mul]
    have hc : 0 ≤ r / c := le_of_lt h
    have : ((r / c).toNat : Int) = r / c := Int.toNat_of_nonneg hc
    rw [this]
    ring
  · simp [h]

theorem changeStep_snd (l : List Int) (r c : Int) (hc : 0 < c) (hr : 0 ≤ r) :
    (changeStep (l, r) c).2 = r % c := by
  have hq := Int.ediv_add_emod r c
  unfold changeStep
  by_cases h : 0 < r / c
  · simp only [h, if_pos]
    have : r / c * c = c * (r / c) := mul_comm _ _
    omega
  · have h0 : r / c = 0 := by
      have hnn : 0 ≤ r / c := Int.ediv_nonneg hr (le_of_lt hc)
      omega
    simp only [h, if_neg, not_false_iff]
    have : c * (r / c) = 0 := by rw [h0]; ring
    omega

theorem changeStep_mem (l : List Int) (r c x : Int)
    (hx : x ∈ (changeStep (l, r) c).1) : x ∈ l ∨ x = c := by
  unfold changeStep at hx
  by_cases h : 0 < r / c
  · simp only [h, if_pos, List.mem_append] at hx
    rcases hx with hx | hx
    · exact Or.inl hx
    · exact Or.inr (List.eq_of_mem_replicate hx)
  · simp only [h, if_neg, not_false_iff] at hx
    exact Or.inl hx

theorem change_sum_eq (a : Int) :
    (change a).sum + changeRemainder a = a := by
  unfold change changeRemainder coins
  simp only [List.foldl]
  have e1 := changeStep_sum [] a 100
  set s1 := changeStep ([], a) 100 with hs1
  have e2 := changeStep_sum s1.1 s1.2 50
  set s2 := changeStep (s1.1, s1.2) 50 with hs2
  have e3 := changeStep_sum s2.1 s2.2 20
  set s3 := changeStep (s2.1, s2.2) 20 with hs3
  have e4 := changeStep_sum s3.1 s3.2 10
  set s4 := changeStep (s3.1, s3.2) 10 with hs4
  have e5 := changeStep_sum s4.1 s4.2 5
  set s5 := changeStep (s4.1, s4.2) 5 with hs5
  simp only [List.sum_nil] at e1
  omega

theorem changeRemainder_eq (a : Int) (ha : 0 ≤ a) :
    changeRemainder a = a % 100 % 50 % 20 % 10 % 5 := by
  unfold changeRemainder coins
  simp only [List.foldl]
  have r1 : (changeStep ([], a) 100).2 = a % 100 :=
    changeStep_snd [] a 100 (by norm_num) ha
  set s1 := changeStep (([] : List Int), a) 100 with hs1
  have n1 : (0:Int) ≤ s1.2 := by rw [r1]; exact Int.emod_nonneg a (by norm_num)
  have r2 : (changeStep s1 50).2 = s1.2 % 50 := by
    have := changeStep_snd s1.1 s1.2 50 (by norm_num) n1
    simpa using this
  set s2 := changeStep s1 50 with hs2
  have n2 : (0:Int) ≤ s2.2 := by rw [r2]; exact Int.emod_nonneg _ (by norm_num)
  have r3 : (changeStep s2 20).2 = s2.2 % 20 := by
    have := changeStep_snd s2.1 s2.2 20 (by norm_num) n2
    simpa using this
  set s3 := changeStep s2 20 with hs3
  have n3 : (0:Int) ≤ s3.2 := by rw [r3]; exact Int.emod_nonneg _ (by norm_num)
  have r4 : (changeStep s3 10).2 = s3.2 % 10 := by
    have := changeStep_snd s3.1 s3.2 10 (by norm_num) n3
    simpa using this
  set s4 := changeStep s3 10 with hs4
  have n4 : (0:Int) ≤ s4.2 := by rw [r4]; exact Int.emod_nonneg _ (by norm_num)
  have r5 : (changeStep s4 5).2 = s4.2 % 5 := by
    have := changeStep_snd s4.1 s4.2 5 (by norm_num) n4
    simpa using this
  rw [r5, r4, r3, r2, r1]

theorem change_mem (a x : Int) (hx : x ∈ change a) : x ∈ coinValues := by
  unfold change coins at hx
  simp only [List.foldl] at hx
  set s1 := changeStep (([] : List Int), a) 100 with hs1
  set s2 := changeStep s1 50 with hs2
  set s3 := changeStep s2 20 with hs3
  set s4 := changeStep s3 10 with hs4
  have m5 := changeStep_mem s4.1 s4.2 5 x
  have m4 := changeStep_mem s3.1 s3.2 10 x
  have m3 := changeStep_mem s2.1 s2.2 20 x
  have m2 := changeStep_mem s1.1 s1.2 50 x
  have m1 := changeStep_mem [] a 100 x
  simp only [List.not_mem_nil] at m1
  have hx5 : x ∈ (changeStep (s4.1, s4.2) 5).1 := by simpa using hx
  rcases m5 hx5 with h | h
  · rcases m4 (by simpa using h) with h | h
    · rcases m3 (by simpa using h) with h | h
      · rcases m2 (by simpa using h) with h | h
        · rcases m1 (by simpa using h) with h | h
          · exact absurd h (by simp)
          · subst h; unfold coinValues; simp
        · subst h; unfold coinValues; simp
      · subst h; unfold coinValues; simp
    · subst h; unfold coinValues; simp
  · subst h; unfold coinValues; simp

theorem isDenomSum_nonneg_mod (a : Int) (h : IsDenomSum a) :
    0 ≤ a ∧ a % 5 = 0 := by
  obtain ⟨l, hmem, hsum⟩ := h
  subst hsum
  induction l with
  | nil => simp
  | cons x xs ih =>
    have hx : x ∈ coinValues := hmem x (by simp)
    have hxs : ∀ y ∈ xs, y ∈ coinValues := fun y hy => hmem y (by simp [hy])
    have ihx := ih hxs
    have hx5 : 0 ≤ x ∧ x % 5 = 0 := by
      unfold coinValues at hx
      simp only [List.mem_cons, List.not_mem_nil, or_false] at hx
      rcases hx with h | h | h | h | h <;> subst h <;> norm_num
    simp only [List.sum_cons]
    omega

/-! ## Store lemmas -/

theorem find?_filter_congr {α : Type} (l : List α) (p q : α → Bool)
    (h : ∀ v, p v = true → q v = true) :
    (l.filter q).find? p = l.find? p := by
  induction l with
  | nil => rfl
  | cons v vs ih =>
    by_cases hq : q v = true
    · rw [List.filter_cons_of_pos hq]
      by_cases hp : p v = true
      · rw [List.find?_cons_of_pos _ hp, List.find?_cons_of_pos _ hp]
      · rw [List.find?_cons_of_neg _ hp, List.find?_cons_of_neg _ hp, ih]
    · have hp : ¬ p v = true := fun hpv => hq (h v hpv)
      rw [List.filter_cons_of_neg hq, List.find?_cons_of_neg _ hp, ih]

theorem find?_filter_none {α : Type} (l : List α) (p q : α → Bool)
    (h : ∀ v, p v = true → q v = false) :
    (l.filter q).find? p = none := by
  induction l with
  | nil => rfl
  | cons v vs ih =>
    by_cases hp : p v = true
    · rw [List.filter_cons_of_neg (by simp [h v hp])]
      exact ih
    · by_cases hq : q v = true
      · rw [List.filter_cons_of_pos hq, List.find?_cons_of_neg _ hp]
        exact ih
      · rw [List.filter_cons_of_neg hq]
        exact ih

theorem find?_append_some {α : Type} (l₁ l₂ : List α) (p : α → Bool) (a : α)
    (h : l₁.find? p = some a) : (l₁ ++ l₂).find? p = some a := by
  rw [List.find?_append, h]
  rfl

theorem findUser_mem (s : VMState) (uid : Nat) (u : User)
    (h : findUser s uid = some u) : u ∈ s.users ∧ u.id = uid := by
  refine ⟨List.mem_of_find?_eq_some h, ?_⟩
  have := List.find?_some h
  simpa using this

theorem findProduct_mem (s : VMState) (pid : Nat) (p : Product)
    (h : findProduct s pid = some p) : p ∈ s.products ∧ p.id = pid := by
  refine ⟨List.mem_of_find?_eq_some h, ?_⟩
  have := List.find?_some h
  simpa using this

theorem find?_map_update {α : Type} (l : List α) (key : α → Nat) (uid : Nat) (u u' : α)
    (h : l.find? (fun v => key v = uid) = some u) (hid : key u' = key u) :
    (l.map (fun v => if key v = key u' then u' else v)).find? (fun v => key v = uid) =
      some u' := by
  have hu : key u = uid := by simpa using List.find?_some h
  induction l with
  | nil => simp at h
  | cons v vs ih =>
    by_cases hv : key v = uid
    · have hfv : v = u := by
        rw [List.find?_cons_of_pos _ (by simpa using hv)] at h
        exact Option.some.inj h
      subst hfv
      simp only [List.map_cons]
      rw [if_pos (by omega)]
      exact List.find?_cons_of_pos _ (by simp only [decide_eq_true_eq]; omega)
    · rw [List.find?_cons_of_neg _ (by simpa using hv)] at h
      simp only [List.map_cons]
      rw [if_neg (by omega)]
      rw [List.find?_cons_of_neg _ (by simpa using hv)]
      exact ih h

theorem findUser_putUser (s : VMState) (uid : Nat) (u u' : User)
    (h : findUser s uid = some u) (hid : u'.id = u.id) :
    findUser (putUser s u') uid = some u' :=
  find?_map_update s.users (fun v => v.id) uid u u' h hid

theorem findProduct_putProduct (s : VMState) (pid : Nat) (p p' : Product)
    (h : findProduct s pid = some p) (hid : p'.id = p.id) :
    findProduct (putProduct s p') pid = some p' :=
  find?_map_update s.products (fun q => q.id) pid p p' h hid

theorem findUser_putProduct (s : VMState) (uid : Nat) (p : Product) :
    findUser (putProduct s p) uid = findUser s uid := rfl

theorem findProduct_putUser (s : VMState) (pid : Nat) (u : User) :
    findProduct (putUser s u) pid = findProduct s pid := rfl

theorem mem_putUser_users (s : VMState) (u' v : User)
    (hv : v ∈ (putUser s u').users) : v = u' ∨ v ∈ s.users := by
  unfold putUser at hv
  simp only [List.mem_map] at hv
  obtain ⟨w, hw, hfw⟩ := hv
  by_cases h : w.id = u'.id
  · rw [if_pos h] at hfw
    exact Or.inl hfw.symm
  · rw [if_neg h] at hfw
    exact Or.inr (hfw ▸ hw)

theorem mem_putProduct_products (s : VMState) (p' q : Product)
    (hq : q ∈ (putProduct s p').products) : q = p' ∨ q ∈ s.products := by
  unfold putProduct at hq
  simp only [List.mem_map] at hq
  obtain ⟨w, hw, hfw⟩ := hq
  by_cases h : w.id = p'.id
  · rw [if_pos h] at hfw
    exact Or.inl hfw.symm
  · rw [if_neg h] at hfw
    exact Or.inr (hfw ▸ hw)

theorem create_product_users (s : VMState) (uid : Nat)
    (a c : Option Int) (n : Option String) :
    (create_product s uid a c n).2.users = s.users := by
  unfold create_product
  by_cases hif : a.getD 0 = 0 ∨ c = none ∨ c = some 0 ∨ n = none ∨ n = some ""
  · rw [if_pos hif]
  · rw [if_neg hif]
    cases findUser s uid <;> rfl

theorem update_product_users (s : VMState) (uid pid : Nat)
    (a c : Option Int) (n : Option String) :
    (update_product s uid pid a c n).2.users = s.users := by
  unfold update_product
  cases findProduct s pid with
  | none => rfl
  | some product =>
    dsimp only
    by_cases hif : product.seller_id ≠ uid
    · rw [if_pos hif]
    · rw [if_neg hif]
      cases findUser s uid <;> rfl

theorem delete_product_users (s : VMState) (uid pid : Nat) :
    (delete_product s uid pid).2.users = s.users := by
  unfold delete_product
  cases findProduct s pid with
  | none => rfl
  | some product =>
    dsimp only
    by_cases hif : product.seller_id ≠ uid
    · rw [if_pos hif]
    · rw [if_neg hif]

/-! ## Middleware lemmas -/

theorem auth_check_bearer (role : String) (decode : List Char → Option TokenPayload) :
    auth_check role (some "Bearer t") decode =
      (match decode "t".toList with
       | none => AuthOutcome.invalidToken
       | some payload =>
         if strContains role payload.role then .ok payload.sub else .forbidden) := by
  have hs : pySplit "Bearer t" = ["Bearer".toList, "t".toList] := by decide
  unfold auth_check
  dsimp only
  rw [if_neg (by decide), hs]
  unfold checkParts
  dsimp only
  rw [if_neg (by decide)]

theorem roleSetAux_infix (cs : List Char) :
    ∀ (acc x : List Char), x ∈ roleSetAux cs acc → x <:+: (acc.reverse ++ cs) := by
  induction cs with
  | nil =>
    intro acc x hx
    unfold roleSetAux at hx
    simp only [List.mem_singleton] at hx
    subst hx
    simp
  | cons c cs ih =>
    intro acc x hx
    unfold roleSetAux at hx
    by_cases hc : c = '|'
    · rw [if_pos hc] at hx
      rcases List.mem_cons.mp hx with hx | hx
      · subst hx
        exact ⟨[], c :: cs, by simp⟩
      · have := ih [] x hx
        simp only [List.reverse_nil, List.nil_append] at this
        obtain ⟨pre, suf, hps⟩ := this
        exact ⟨acc.reverse ++ [c] ++ pre, suf, by simp [← hps]⟩
    · rw [if_neg hc] at hx
      have := ih (c :: acc) x hx
      simpa [List.append_assoc] using this

theorem roleSet_infix (role : String) (r : List Char) (h : r ∈ roleSet role) :
    r <:+: role.toList := by
  have := roleSetAux_infix role.toList [] r h
  simpa using this

/-! ## Claim theorems -/

/-- C2: for every non-negative integer that is a sum of elements of
{5, 10, 20, 50, 100}, the greedy change calculation returns a sequence
whose elements all belong to the denomination set and whose sum equals
the input amount. -/
theorem change_correct (a : Int) (h : IsDenomSum a) :
    (∀ x ∈ change a, x ∈ coinValues) ∧ (change a).sum = a := by
  obtain ⟨h0, h5⟩ := isDenomSum_nonneg_mod a h
  refine ⟨fun x hx => change_mem a x hx, ?_⟩
  have hs := change_sum_eq a
  have hr := changeRemainder_eq a h0
  have hz : changeRemainder a = 0 := by rw [hr]; omega
  omega

/-- Witness for C2: 165 = 100 + 50 + 10 + 5 is a denomination sum, and the
theorem evaluates on it. -/
theorem change_correct_witness :
    (∀ x ∈ change 165, x ∈ coinValues) ∧ (change 165).sum = 165 :=
  change_correct 165 ⟨[100, 50, 10, 5], by decide, by decide⟩

/-- C3 counterexample: the token role "ell" is not a member of the
role-set {seller} of `auth_required(role="seller")`, yet the middleware
accepts the request, because `user_role not in role` is a Python substring
test, not set membership. -/
theorem role_check_not_membership_cex :
    "ell".toList ∉ roleSet "seller" ∧
    auth_check "seller" (some "Bearer t") (fun _ => some (generate_token 1 "ell")) =
      .ok 1 := by
  constructor
  · decide
  · decide

/-- C3 (amended): on a well-formed header with a verified token, the
middleware rejects with Forbidden exactly when the token's role string is
not a contiguous substring of the operation's role specification string;
every member of the pipe-separated role-set is a substring of the
specification, so a token whose role is in the role-set is never rejected
on role grounds and the wrapped operation runs with the token's subject. -/
theorem role_check_substring (role : String) (payload : TokenPayload) :
    (auth_check role (some "Bearer t") (fun _ => some payload) = .forbidden ↔
      ¬ (payload.role.toList <:+: role.toList)) ∧
    (payload.role.toList ∈ roleSet role →
      auth_check role (some "Bearer t") (fun _ => some payload) = .ok payload.sub) := by
  rw [auth_check_bearer]
  dsimp only
  constructor
  · by_cases hc : strContains role payload.role = true
    · rw [if_pos hc]
      unfold strContains at hc
      simp only [decide_eq_true_eq] at hc
      constructor
      · intro h
        simp at h
      · intro h
        exact absurd hc h
    · rw [if_neg hc]
      unfold strContains at hc
      simp only [decide_eq_true_eq] at hc
      constructor
      · intro _
        exact hc
      · intro _
        rfl
  · intro hmem
    have hinf := roleSet_infix role payload.role.toList hmem
    rw [if_pos (by unfold strContains; simpa using hinf)]

/-- Witness for C3 (amended): a buyer token against the role-set
{seller, buyer} is accepted with its subject. -/
theorem role_check_substring_witness :
    auth_check "seller|buyer" (some "Bearer t") (fun _ => some ⟨7, "buyer"⟩) =
      .ok 7 :=
  (role_check_substring "seller|buyer" ⟨7, "buyer"⟩).2 (by decide)

/-- C4: the middleware is NOT total on header values: a non-empty
whitespace-only Authorization header makes `auth_header.split()` return
an empty list and `parts[0]` raise an unhandled IndexError instead of a
MalformedHeader error response. -/
theorem auth_header_crash :
    pySplit " " = [] ∧
    auth_check "buyer" (some " ") (fun _ => none) = .serverCrash := by
  constructor
  · decide
  · decide

/-! ## Buy lemmas -/

theorem buy_reduce (s : VMState) (uid pid : Nat) (amount : Int) (u : User) (p : Product)
    (hu : findUser s uid = some u) (hp : findProduct s pid = some p) :
    buy s uid (some pid) amount =
      if p.amount_available < amount then (.insufficientStock, s)
      else if u.deposit < amount * p.cost then (.insufficientFunds, s)
      else
        (.success (change (u.deposit - amount * p.cost)),
         putProduct (putUser s { u with deposit := u.deposit - amount * p.cost })
           { p with amount_available := p.amount_available - amount }) := by
  unfold buy
  rw [hu]
  dsimp only
  rw [Option.some_bind, hp]

/-- C1 (amended): with the user and product resolved, the buy operation
fails InsufficientStock exactly when stock < amount; it fails
InsufficientFunds exactly when the stock check passed and
balance < amount * unit_cost (the stock check runs first, so a request
failing both checks reports InsufficientStock); and on every failure the
store is left completely unchanged. -/
theorem buy_validation (s : VMState) (uid pid : Nat) (amount : Int) (u : User) (p : Product)
    (hu : findUser s uid = some u) (hp : findProduct s pid = some p) :
    ((buy s uid (some pid) amount).1 = .insufficientStock ↔
      p.amount_available < amount) ∧
    ((buy s uid (some pid) amount).1 = .insufficientFunds ↔
      (amount ≤ p.amount_available ∧ u.deposit < amount * p.cost)) ∧
    ((∀ ch, (buy s uid (some pid) amount).1 ≠ .success ch) →
      (buy s uid (some pid) amount).2 = s) := by
  rw [buy_reduce s uid pid amount u p hu hp]
  by_cases h1 : p.amount_available < amount
  · rw [if_pos h1]
    refine ⟨⟨fun _ => h1, fun _ => rfl⟩, ⟨fun h => by simp at h, fun h => by omega⟩,
      fun _ => rfl⟩
  · rw [if_neg h1]
    by_cases h2 : u.deposit < amount * p.cost
    · rw [if_pos h2]
      refine ⟨⟨fun h => by simp at h, fun h => absurd h h1⟩,
        ⟨fun _ => ⟨by omega, h2⟩, fun _ => rfl⟩, fun _ => rfl⟩
    · rw [if_neg h2]
      refine ⟨⟨fun h => by simp at h, fun h => absurd h h1⟩,
        ⟨fun h => by simp at h, fun h => absurd h.2 h2⟩, fun hne => ?_⟩
      exact absurd rfl (hne (change (u.deposit - amount * p.cost)))

/-- Witness for C1 (amended): evaluated on a buyer with balance 150
buying 2 units of a cost-50, stock-10 product. -/
theorem buy_validation_witness :
    (((buy exBuyState 1 (some 1) 2).1 = .insufficientStock ↔
      ((10 : Int) < 2)) ∧
    ((buy exBuyState 1 (some 1) 2).1 = .insufficientFunds ↔
      ((2 : Int) ≤ 10 ∧ (150 : Int) < 2 * 50)) ∧
    ((∀ ch, (buy exBuyState 1 (some 1) 2).1 ≠ .success ch) →
      (buy exBuyState 1 (some 1) 2).2 = exBuyState)) :=
  buy_validation exBuyState 1 1 2 ⟨1, "bob", "pw", 150, "buyer"⟩
    ⟨1, "candy", 10, 50, 2⟩ (by decide) (by decide)

/-- C1 counterexample: a request for 1 unit against a product with stock
0 and cost 10 by a buyer with balance 0 has balance < amount * unit_cost,
yet the buy operation does not fail InsufficientFunds (it reports
InsufficientStock, because the stock check runs first), refuting the
unconditional "fails with InsufficientFunds exactly when
user.balance < requested_amount * product.unit_cost". -/
theorem buy_insufficientFunds_not_iff :
    findUser cexBuyState 1 = some ⟨1, "alice", "pw", 0, "buyer"⟩ ∧
    findProduct cexBuyState 1 = some ⟨1, "candy", 0, 10, 2⟩ ∧
    ((0 : Int) < 1 * 10) ∧
    (buy cexBuyState 1 (some 1) 1).1 = .insufficientStock ∧
    (buy cexBuyState 1 (some 1) 1).1 ≠ .insufficientFunds := by
  refine ⟨by decide, by decide, by decide, by decide, by decide⟩

/-- C5: a successful buy of n units at unit cost c from balance b leaves
balance b - n*c, decrements the stock by n, and returns the change
calculation applied to the resulting balance. -/
theorem buy_success (s : VMState) (uid pid : Nat) (n : Int) (u : User) (p : Product)
    (hu : findUser s uid = some u) (hp : findProduct s pid = some p)
    (hstock : n ≤ p.amount_available) (hfunds : n * p.cost ≤ u.deposit) :
    (buy s uid (some pid) n).1 = .success (change (u.deposit - n * p.cost)) ∧
    findUser (buy s uid (some pid) n).2 uid =
      some { u with deposit := u.deposit - n * p.cost } ∧
    findProduct (buy s uid (some pid) n).2 pid =
      some { p with amount_available := p.amount_available - n } := by
  rw [buy_reduce s uid pid n u p hu hp]
  rw [if_neg (not_lt.mpr hstock), if_neg (not_lt.mpr hfunds)]
  refine ⟨rfl, ?_, ?_⟩
  · rw [findUser_putProduct]
    exact findUser_putUser s uid u _ hu rfl
  · have hp' : findProduct (putUser s { u with deposit := u.deposit - n * p.cost }) pid =
        some p := by rw [findProduct_putUser]; exact hp
    exact findProduct_putProduct _ pid p _ hp' rfl

/-- Witness for C5, which is also the claim's concrete instance: buying
amount=2 of a unit-cost-50 product from balance 150 succeeds, leaves
balance 50 and stock 8, and returns change [50]. -/
theorem buy_success_witness :
    (buy exBuyState 1 (some 1) 2).1 = .success [50] ∧
    findUser (buy exBuyState 1 (some 1) 2).2 1 = some ⟨1, "bob", "pw", 50, "buyer"⟩ ∧
    findProduct (buy exBuyState 1 (some 1) 2).2 1 = some ⟨1, "candy", 8, 50, 2⟩ := by
  have h := buy_success exBuyState 1 1 2 ⟨1, "bob", "pw", 150, "buyer"⟩
    ⟨1, "candy", 10, 50, 2⟩ (by decide) (by decide) (by decide) (by decide)
  obtain ⟨h1, h2, h3⟩ := h
  have e : (150 : Int) - 2 * 50 = 50 := by norm_num
  have ec : change 50 = [50] := by decide
  refine ⟨?_, ?_, ?_⟩
  · rw [h1, e, ec]
  · rw [h2]
    norm_num
  · rw [h3]
    norm_num

/-- C8: the deposit operation rejects any coin outside {5, 10, 20, 50,
100} with InvalidCoin leaving the store unchanged, and for a valid coin
increases the authenticated user's balance by exactly that coin. -/
theorem deposit_spec (s : VMState) (uid : Nat) (coin : Int) (u : User)
    (hu : findUser s uid = some u) :
    (coin ∉ coinValues → depositOp s uid coin = (.invalidCoin, s)) ∧
    (coin ∈ coinValues →
      (depositOp s uid coin).1 = .success ∧
      findUser (depositOp s uid coin).2 uid =
        some { u with deposit := u.deposit + coin }) := by
  constructor
  · intro h
    unfold depositOp
    rw [if_pos h]
  · intro h
    unfold depositOp
    rw [if_neg (by simpa using h), hu]
    exact ⟨rfl, findUser_putUser s uid u _ hu rfl⟩

/-- Witness for C8, covering the claim's concrete instance: depositing 7
fails InvalidCoin with the store unchanged; depositing 5 then 10 from
balance 0 yields balance 15. -/
theorem deposit_spec_witness :
    depositOp exDepositState 1 7 = (.invalidCoin, exDepositState) ∧
    findUser (depositOp (depositOp exDepositState 1 5).2 1 10).2 1 =
      some ⟨1, "carol", "pw", 15, "buyer"⟩ := by
  constructor
  · exact (deposit_spec exDepositState 1 7 ⟨1, "carol", "pw", 0, "buyer"⟩
      (by decide)).1 (by decide)
  · have h := (deposit_spec (depositOp exDepositState 1 5).2 1 10
      ⟨1, "carol", "pw", 5, "buyer"⟩ (by decide)).2 (by decide)
    rw [h.2]
    norm_num

/-- C9 counterexample: registering with role "admin" succeeds and stores
a user whose role is neither "buyer" nor "seller"; the register handler
performs no validation of the requested role. -/
theorem register_role_unvalidated_cex :
    (register initState "mallory" "pw" (some "admin")).1 = .created ∧
    findUser (register initState "mallory" "pw" (some "admin")).2 1 =
      some ⟨1, "mallory", "pw", 0, "admin"⟩ ∧
    ("admin" ≠ "buyer" ∧ "admin" ≠ "seller") := by
  refine ⟨by decide, by decide, by decide, by decide⟩

/-- C9 (amended): every user created by register has role equal to the
request's role field when supplied and "buyer" when absent; the role
string is stored verbatim, with no validation against {buyer, seller}. -/
theorem register_role_stored (s : VMState) (un pw : String) (rf : Option String)
    (h : (register s un pw rf).1 = .created) :
    (register s un pw rf).2.users =
      s.users ++ [⟨s.nextUid, un, pw, 0, rf.getD "buyer"⟩] := by
  unfold register at h ⊢
  by_cases h1 : un = "" ∨ pw = ""
  · rw [if_pos h1] at h
    simp at h
  · rw [if_neg h1] at h ⊢
    by_cases h2 : s.users.any (fun u => u.username = un) = true
    · rw [if_pos h2] at h
      simp at h
    · rw [if_neg h2]

/-- Witness for C9 (amended): registering "alice" with the role field
"seller" from the empty store appends exactly that user record. -/
theorem register_role_stored_witness :
    (register initState "alice" "pw" (some "seller")).2.users =
      initState.users ++ [⟨initState.nextUid, "alice", "pw", 0,
        (some "seller").getD "buyer"⟩] :=
  register_role_stored initState "alice" "pw" (some "seller") (by decide)

/-- C10: the outcome and the state transition of a buy request depend
only on the authenticated token subject and the body's product_id and
amount: any user-identifying field in the request body is ignored, so a
caller cannot act as another user through the body. -/
theorem buy_ignores_body_identity (s : VMState) (authUid : Nat)
    (pid : Option Nat) (amt : Option Int) (u1 u2 : Option Nat) :
    buyHandler s authUid ⟨pid, amt, u1⟩ = buyHandler s authUid ⟨pid, amt, u2⟩ := rfl

/-- C6 counterexample: from the empty store, registering a seller (whose
token the middleware accepts for seller routes) and creating a product
with `amount_available = -5` reaches a state holding a product with
negative stock: neither create_product nor update_product validates the
supplied stock value. -/
theorem stock_invariant_cex :
    Reachable cexNegStockState ∧
    auth_check "seller" (some "Bearer t") (fun _ => some (generate_token 1 "seller")) =
      .ok 1 ∧
    findProduct cexNegStockState 1 = some ⟨1, "candy", -5, 3, 1⟩ ∧
    (⟨1, "candy", -5, 3, 1⟩ : Product).amount_available < 0 := by
  refine ⟨?_, by decide, by decide, by decide⟩
  exact Reachable.next _ _ (Reachable.next _ _ Reachable.init)

/-- C6 (amended): the buy and delete operations preserve the invariant
stock ≥ 0 for every product (the buy stock check guarantees the
decremented stock stays non-negative); create_product and update_product
store the supplied amount_available unvalidated, so the invariant over
the full surface holds only for non-negative inputs. -/
theorem buy_preserves_stock (s : VMState) (uid : Nat) (pid : Option Nat)
    (amt : Int) (pid2 : Nat)
    (h : ∀ p ∈ s.products, 0 ≤ p.amount_available) :
    (∀ q ∈ (buy s uid pid amt).2.products, 0 ≤ q.amount_available) ∧
    (∀ q ∈ (delete_product s uid pid2).2.products, 0 ≤ q.amount_available) := by
  constructor
  · intro q hq
    unfold buy at hq
    cases hfu : findUser s uid with
    | none => rw [hfu] at hq; exact h q hq
    | some user =>
      rw [hfu] at hq
      dsimp only at hq
      cases hfp : pid.bind (fun pid => findProduct s pid) with
      | none => rw [hfp] at hq; exact h q hq
      | some product =>
        rw [hfp] at hq
        dsimp only at hq
        by_cases h1 : product.amount_available < amt
        · rw [if_pos h1] at hq; exact h q hq
        · rw [if_neg h1] at hq
          by_cases h2 : user.deposit < amt * product.cost
          · rw [if_pos h2] at hq; exact h q hq
          · rw [if_neg h2] at hq
            rcases mem_putProduct_products _ _ _ hq with hq2 | hq2
            · subst hq2
              show 0 ≤ product.amount_available - amt
              omega
            · exact h q hq2
  · intro q hq
    unfold delete_product at hq
    cases hfp : findProduct s pid2 with
    | none => rw [hfp] at hq; exact h q hq
    | some product =>
      rw [hfp] at hq
      dsimp only at hq
      by_cases h1 : product.seller_id ≠ uid
      · rw [if_pos h1] at hq; exact h q hq
      · rw [if_neg h1] at hq
        exact h q (List.mem_filter.mp hq).1

/-- Witness for C6 (amended): evaluated on the successful buy of 2 units
from stock 10, whose resulting product row has stock 8 ≥ 0. -/
theorem buy_preserves_stock_witness :
    0 ≤ (Product.mk 1 "candy" 8 50 2).amount_available :=
  (buy_preserves_stock exBuyState 1 (some 1) 2 1 (by decide)).1
    ⟨1, "candy", 8, 50, 2⟩ (by decide)

/-! ## Balance invariant lemmas -/

theorem coinValues_pos (c : Int) (h : c ∈ coinValues) : 0 < c := by
  unfold coinValues at h
  simp only [List.mem_cons, List.not_mem_nil, or_false] at h
  rcases h with h | h | h | h | h <;> subst h <;> norm_num

theorem users_nonneg_step (s : VMState) (op : Op)
    (h : ∀ u ∈ s.users, 0 ≤ u.deposit) :
    ∀ v ∈ (step s op).users, 0 ≤ v.deposit := by
  cases op with
  | opRegister un pw r =>
    intro v hv
    simp only [step] at hv
    unfold register at hv
    dsimp only at hv
    by_cases h1 : un = "" ∨ pw = ""
    · rw [if_pos h1] at hv
      exact h v hv
    · rw [if_neg h1] at hv
      by_cases h2 : s.users.any (fun u => u.username = un) = true
      · rw [if_pos h2] at hv
        exact h v hv
      · rw [if_neg h2] at hv
        rcases List.mem_append.mp hv with hv | hv
        · exact h v hv
        · simp only [List.mem_singleton] at hv
          subst hv
          norm_num
  | opDeposit uid c =>
    intro v hv
    simp only [step] at hv
    unfold depositOp at hv
    by_cases h1 : c ∉ coinValues
    · rw [if_pos h1] at hv
      exact h v hv
    · rw [if_neg h1] at hv
      cases hf : findUser s uid with
      | none => rw [hf] at hv; exact h v hv
      | some user =>
        rw [hf] at hv
        dsimp only at hv
        rcases mem_putUser_users _ _ _ hv with hv2 | hv2
        · subst hv2
          have hmem := (findUser_mem s uid user hf).1
          have hpos := coinValues_pos c (not_not.mp h1)
          have hd := h user hmem
          show 0 ≤ user.deposit + c
          omega
        · exact h v hv2
  | opBuy uid pid amt =>
    intro v hv
    simp only [step] at hv
    unfold buy at hv
    cases hfu : findUser s uid with
    | none => rw [hfu] at hv; exact h v hv
    | some user =>
      rw [hfu] at hv
      dsimp only at hv
      cases hfp : pid.bind (fun pid => findProduct s pid) with
      | none => rw [hfp] at hv; exact h v hv
      | some product =>
        rw [hfp] at hv
        dsimp only at hv
        by_cases h1 : product.amount_available < amt
        · rw [if_pos h1] at hv; exact h v hv
        · rw [if_neg h1] at hv
          by_cases h2 : user.deposit < amt * product.cost
          · rw [if_pos h2] at hv; exact h v hv
          · rw [if_neg h2] at hv
            have hv' : v ∈ (putUser s
                { user with deposit := user.deposit - amt * product.cost }).users := hv
            rcases mem_putUser_users _ _ _ hv' with hv2 | hv2
            · subst hv2
              show 0 ≤ user.deposit - amt * product.cost
              omega
            · exact h v hv2
  | opReset uid =>
    intro v hv
    simp only [step] at hv
    unfold reset_deposit at hv
    cases hf : findUser s uid with
    | none => rw [hf] at hv; exact h v hv
    | some user =>
      rw [hf] at hv
      dsimp only at hv
      rcases mem_putUser_users _ _ _ hv with hv2 | hv2
      · subst hv2
        show (0:Int) ≤ 0
        norm_num
      · exact h v hv2
  | opCreateProduct uid a c n =>
    intro v hv
    simp only [step] at hv
    rw [create_product_users] at hv
    exact h v hv
  | opUpdateProduct uid pid a c n =>
    intro v hv
    simp only [step] at hv
    rw [update_product_users] at hv
    exact h v hv
  | opDeleteProduct uid pid =>
    intro v hv
    simp only [step] at hv
    rw [delete_product_users] at hv
    exact h v hv
  | opDeleteUser actor t =>
    intro v hv
    simp only [step] at hv
    unfold delete_user at hv
    by_cases h1 : actor ≠ t
    · rw [if_pos h1] at hv
      exact h v hv
    · rw [if_neg h1] at hv
      cases hf : findUser s t with
      | none => rw [hf] at hv; exact h v hv
      | some w =>
        rw [hf] at hv
        dsimp only at hv
        exact h v (List.mem_filter.mp hv).1

theorem reachable_nonneg (s : VMState) (h : Reachable s) :
    ∀ u ∈ s.users, 0 ≤ u.deposit := by
  induction h with
  | init =>
    intro u hu
    simp [initState] at hu
  | next s op hs ih => exact users_nonneg_step s op ih

theorem step_balance_frame (s : VMState) (op : Op) (hop : mutatesBalance op = false)
    (uid : Nat) (u u' : User) (h : findUser s uid = some u)
    (h' : findUser (step s op) uid = some u') : u'.deposit = u.deposit := by
  cases op with
  | opDeposit uid2 c => simp [mutatesBalance] at hop
  | opBuy uid2 pid amt => simp [mutatesBalance] at hop
  | opReset uid2 => simp [mutatesBalance] at hop
  | opCreateProduct uid2 a c n =>
    have he : findUser (step s (.opCreateProduct uid2 a c n)) uid = findUser s uid := by
      unfold findUser
      rw [show (step s (.opCreateProduct uid2 a c n)).users = s.users from
        create_product_users s uid2 a c n]
    rw [he, h] at h'
    rw [Option.some.inj h']
  | opUpdateProduct uid2 pid a c n =>
    have he : findUser (step s (.opUpdateProduct uid2 pid a c n)) uid = findUser s uid := by
      unfold findUser
      rw [show (step s (.opUpdateProduct uid2 pid a c n)).users = s.users from
        update_product_users s uid2 pid a c n]
    rw [he, h] at h'
    rw [Option.some.inj h']
  | opDeleteProduct uid2 pid =>
    have he : findUser (step s (.opDeleteProduct uid2 pid)) uid = findUser s uid := by
      unfold findUser
      rw [show (step s (.opDeleteProduct uid2 pid)).users = s.users from
        delete_product_users s uid2 pid]
    rw [he, h] at h'
    rw [Option.some.inj h']
  | opRegister un pw r =>
    simp only [step] at h'
    unfold register at h'
    dsimp only at h'
    by_cases h1 : un = "" ∨ pw = ""
    · rw [if_pos h1] at h'
      rw [h] at h'
      rw [Option.some.inj h']
    · rw [if_neg h1] at h'
      by_cases h2 : s.users.any (fun u => u.username = un) = true
      · rw [if_pos h2] at h'
        rw [h] at h'
        rw [Option.some.inj h']
      · rw [if_neg h2] at h'
        unfold findUser at h h'
        rw [find?_append_some _ _ _ u h] at h'
        rw [Option.some.inj h']
  | opDeleteUser actor t =>
    simp only [step] at h'
    unfold delete_user at h'
    by_cases h1 : actor ≠ t
    · rw [if_pos h1] at h'
      rw [h] at h'
      rw [Option.some.inj h']
    · rw [if_neg h1] at h'
      cases hf : findUser s t with
      | none =>
        rw [hf] at h'
        rw [h] at h'
        rw [Option.some.inj h']
      | some w =>
        rw [hf] at h'
        dsimp only at h'
        unfold findUser at h h'
        by_cases ht : uid = t
        · subst ht
          have hnone : (s.users.filter (fun v => v.id ≠ uid)).find?
              (fun v => v.id = uid) = none := by
            apply find?_filter_none
            intro v hv
            simp only [decide_eq_true_eq] at hv
            simp [hv]
          rw [hnone] at h'
          cases h'
        · have hsame : (s.users.filter (fun v => v.id ≠ t)).find?
              (fun v => v.id = uid) = s.users.find? (fun v => v.id = uid) := by
            apply find?_filter_congr
            intro v hv
            simp only [decide_eq_true_eq] at hv
            simp [hv, ht]
          rw [hsame, h] at h'
          rw [Option.some.inj h']

/-- C7: in every reachable store state every user's balance is a
non-negative integer, and the operations other than deposit, reset and
buy never change the balance of any user still present. -/
theorem balance_invariant_and_frame :
    (∀ s, Reachable s → ∀ u ∈ s.users, 0 ≤ u.deposit) ∧
    (∀ s op, mutatesBalance op = false → ∀ uid u u',
      findUser s uid = some u → findUser (step s op) uid = some u' →
      u'.deposit = u.deposit) :=
  ⟨fun s h => reachable_nonneg s h,
   fun s op hop uid u u' h h' => step_balance_frame s op hop uid u u' h h'⟩

/-- Witness for C7: evaluated on the store holding the registered buyer
"ann" (reached from the empty store), whose balance 0 is non-negative,
and on a create_product request, which leaves her balance unchanged. -/
theorem balance_invariant_witness :
    0 ≤ (User.mk 1 "ann" "pw" 0 "buyer").deposit ∧
    (User.mk 1 "ann" "pw" 0 "buyer").deposit =
      (User.mk 1 "ann" "pw" 0 "buyer").deposit := by
  constructor
  · exact balance_invariant_and_frame.1 exRegState
      (Reachable.next _ _ Reachable.init) ⟨1, "ann", "pw", 0, "buyer"⟩ (by decide)
  · exact balance_invariant_and_frame.2 exRegState
      (.opCreateProduct 1 (some 4) (some 3) (some "x")) (by decide) 1
      ⟨1, "ann", "pw", 0, "buyer"⟩ ⟨1, "ann", "pw", 0, "buyer"⟩
      (by decide) (by decide)
